import Mathlib

/-!
Verification development for the adaptive-distance SMC-ABC core exercised by
the elfi-dev/notebooks repository (src/adaptive_distance.ipynb).

The repository itself contains only a demonstration notebook; the algorithm it
exercises lives in the external elfi library.  We therefore embed two kinds of
material:

1. the recorded outputs of the notebook's executed cells (simulation counts,
   thresholds, the adaptive-distance weight history), taken verbatim from the
   notebook source as exact rationals and naturals; these are repository code
   facts and are authoritative;
2. a model of the core algorithm, each piece marked `Modelled from the spec:`
   in its doc comment, faithful to the spec's description and, where the
   notebook's own recorded behaviour contradicts the spec (the within-round
   use of freshly estimated weights, and per-round simulation counts), to the
   notebook's description and recorded outputs (weighted distance, weight
   estimator with the zero-variance guard, batch selection with stable
   tie-breaking, and the round loop with external proposal and simulator
   collaborators).

Selection and thresholds are carried as squared distances throughout the
round-loop model: the square root is strictly monotone on nonnegative
arguments, so ordering, selection and acceptance comparisons agree with the
real-valued distances (proved below as weightedDist_le_iff).
-/

namespace ElfiAda

/-! ### Recorded notebook outputs (Example 1, cells 5-15)

Example 1: prior theta uniform on (0,50), simulator outputs S1 and S2 with
observed value 20 each; rejection sampling with batch_size=10000, seed=123,
then adaptive distance SMC with the same batch size and seed, one round.
-/

/-- Recorded: the rejection run used n_samples = 100. -/
def ex1_nSamples : ℕ := 100

/-- Recorded: the rejection run and the adaptive run used quantile = 0.01. -/
def ex1_quantile : ℚ := 1/100

/-- Recorded output of the rejection-sampler cell: Number of simulations: 10000. -/
def ex1_rej_nSim : ℕ := 10000

/-- Recorded output of the rejection-sampler cell: Threshold: 6.66 (plain
unweighted Euclidean distance over the 10000 candidates). -/
def ex1_rej_threshold : ℚ := 6.66

/-- Recorded: the adaptive run sampled one single round (rounds = 1). -/
def ex1_ada_rounds : ℕ := 1

/-- Recorded output of the one-round adaptive SMC cell: Number of simulations:
10000 (presented with the exact same candidate parameters as the rejection run,
per the notebook: same batch size and seed). -/
def ex1_ada_nSim : ℕ := 10000

/-- Recorded output of the one-round adaptive SMC cell: Threshold: 0.462. -/
def ex1_ada_threshold : ℚ := 0.462

/-- Recorded output of cell 15: after the single adaptive round,
sample_ada.adaptive_distance_w is a one-entry list of weight vectors. -/
def ex1_ada_w_history : List (List ℚ) := [[0.06940134, 0.0097677]]

/-! ### Recorded notebook outputs (Example 2, cells 18-26)

Example 2: prior theta normal(0,100), S1 informative, S2 uninformative,
observed [0,0]; adaptive distance SMC with batch_size=2000, seed=123;
a first call of 5 rounds with the default quantile = 0.5, then a second call
of 2 further rounds on the same controller.
-/

/-- Recorded: both sample calls of example 2 used n_samples = 1000. -/
def ex2_nSamples : ℕ := 1000

/-- Recorded: example 2 used the default quantile = 0.5 (notebook markdown:
"the default quantile=0.5 which is recommended in sequential estimation"). -/
def ex2_quantile : ℚ := 1/2

/-- Recorded: the first sample call of example 2 ran 5 rounds. -/
def ex2_rounds_first : ℕ := 5

/-- Recorded: the second sample call of example 2 ran 2 further rounds,
printed as "ABC-SMC Round 6 / 7" and "ABC-SMC Round 7 / 7". -/
def ex2_rounds_second : ℕ := 2

/-- Recorded output after the first call (5 rounds): Number of simulations: 32000. -/
def ex2_nSim_after5 : ℕ := 32000

/-- Recorded output after the second call (7 rounds in total):
Number of simulations: 48000. -/
def ex2_nSim_after7 : ℕ := 48000

/-- Recorded output of cell 26: sample_ada.adaptive_distance_w after the
5 + 2 rounds of example 2, one weight vector per round, seven entries. -/
def ex2_w_history : List (List ℚ) :=
  [[0.01023228, 1.00584519],
   [0.00921258, 0.99287166],
   [0.01201937, 0.99365522],
   [0.02217631, 0.98925365],
   [0.04355987, 1.00076738],
   [0.07863284, 0.9971017],
   [0.13892778, 1.00929049]]

/-- The first component (weight of feature S1) of the i-th recorded weight
vector of example 2. -/
def ex2_w1 (i : ℕ) : ℚ := (ex2_w_history.getD i []).getD 0 0

/-- The second component (weight of feature S2) of the i-th recorded weight
vector of example 2. -/
def ex2_w2 (i : ℕ) : ℚ := (ex2_w_history.getD i []).getD 1 0

/-! ### Weighted distance (spec 4.1) -/

/-- Modelled from the spec: the all-ones weight vector of dimension d, the
default used before the first weight estimation ("if w is not supplied,
behaves as ordinary (unweighted) Euclidean distance"). -/
def defaultWeight (d : ℕ) : List ℚ := List.replicate d 1

/-- Modelled from the spec: the sum of squared weighted deviations between a
simulated feature vector s and the observed vector o, that is
the sum over j of (w_j * (s_j - o_j))^2 with j ranging over the d = o.length
features.  This is the square of the weighted distance of spec 4.1. -/
def weightedSqDev (w o s : List ℚ) : ℚ :=
  ((List.range o.length).map (fun j => (w.getD j 0 * (s.getD j 0 - o.getD j 0)) ^ 2)).sum

/-- Modelled from the spec: the weighted Euclidean distance of spec 4.1,
dist = sqrt of the sum over j of (w_j * (s_j - o_j))^2. -/
noncomputable def weightedDist (w o s : List ℚ) : ℝ :=
  Real.sqrt ((weightedSqDev w o s : ℚ) : ℝ)

/-- Modelled from the spec: the ordinary (unweighted) Euclidean distance
between the observed vector o and a simulated feature vector s. -/
noncomputable def euclidDist (o s : List ℚ) : ℝ :=
  Real.sqrt ((((List.range o.length).map (fun j => (s.getD j 0 - o.getD j 0) ^ 2)).sum : ℚ) : ℝ)

/-- Modelled from the spec: the Weighted Distance Function of spec 4.1 applied
to a whole batch S of simulated feature vectors, returning one non-negative
scalar per batch row. -/
noncomputable def weightedDistBatch (w o : List ℚ) (S : List (List ℚ)) : List ℝ :=
  S.map (fun s => weightedDist w o s)

/-! ### Weight estimator (spec 4.2) -/

/-- Modelled from the spec: the j-th column of a batch of simulated feature
vectors (one batch row per simulation). -/
def column (S : List (List ℚ)) (j : ℕ) : List ℚ := S.map (fun row => row.getD j 0)

/-- Modelled from the spec: arithmetic mean of a list of rationals. -/
def mean (xs : List ℚ) : ℚ := xs.sum / xs.length

/-- Modelled from the spec: population variance of a list of rationals,
the mean of the squared deviations from the mean. -/
def popVar (xs : List ℚ) : ℚ :=
  ((xs.map (fun x => (x - mean xs) ^ 2)).sum) / xs.length

/-- Modelled from the spec: standard deviation, the square root of the
population variance. -/
noncomputable def stddev (xs : List ℚ) : ℝ := Real.sqrt ((popVar xs : ℚ) : ℝ)

/-- Modelled from the spec: the weight derived from one feature column,
1 / sigma when the standard deviation sigma is strictly positive
and 0 when it is zero (the zero-variance guard of spec 4.2). -/
noncomputable def columnWeight (xs : List ℚ) : ℝ :=
  if 0 < popVar xs then 1 / stddev xs else 0

/-- The feature dimension of a batch: the length of its first row. -/
def featDim (S : List (List ℚ)) : ℕ := (S.headD []).length

/-- Modelled from the spec: the Weight Estimator of spec 4.2, computing one
weight per feature column of the batch. -/
noncomputable def estWeights (S : List (List ℚ)) : List ℝ :=
  (List.range (featDim S)).map (fun j => columnWeight (column S j))

/-! ### Batch selection with stable tie-breaking (spec 4.3) -/

/-- Modelled from the spec: the batch size B = ceil(n_samples / quantile). -/
def batchSize (n : ℕ) (q : ℚ) : ℕ := (Int.ceil ((n : ℚ) / q)).toNat

/-- Modelled from the spec: the comparison used by the stable sort of a batch,
ordering particles by ascending distance with ties broken by original draw
order.  A particle is a pair of its original draw index and its distance. -/
def rankLe (a b : ℕ × ℚ) : Prop := a.2 < b.2 ∨ (a.2 = b.2 ∧ a.1 ≤ b.1)

instance : DecidableRel rankLe := fun a b => by
  unfold rankLe
  infer_instance

instance : IsTotal (ℕ × ℚ) rankLe where
  total a b := by
    unfold rankLe
    rcases lt_trichotomy a.2 b.2 with h | h | h
    · exact Or.inl (Or.inl h)
    · rcases Nat.le_total a.1 b.1 with h1 | h1
      · exact Or.inl (Or.inr ⟨h, h1⟩)
      · exact Or.inr (Or.inr ⟨h.symm, h1⟩)
    · exact Or.inr (Or.inl h)

instance : IsTrans (ℕ × ℚ) rankLe where
  trans a b c hab hbc := by
    unfold rankLe at *
    rcases hab with h1 | ⟨h1, h1i⟩ <;> rcases hbc with h2 | ⟨h2, h2i⟩
    · exact Or.inl (h1.trans h2)
    · exact Or.inl (h2 ▸ h1)
    · exact Or.inl (h1 ▸ h2)
    · exact Or.inr ⟨h1.trans h2, h1i.trans h2i⟩

instance : IsRefl (ℕ × ℚ) rankLe where
  refl _ := Or.inr ⟨rfl, le_rfl⟩

instance : IsAntisymm (ℕ × ℚ) rankLe where
  antisymm a b hab hba := by
    rcases hab with h1 | ⟨h1, h1i⟩ <;> rcases hba with h2 | ⟨h2, h2i⟩
    · exact absurd (h1.trans h2) (lt_irrefl _)
    · exact absurd h1 (h2 ▸ lt_irrefl _)
    · exact absurd h2 (h1 ▸ lt_irrefl _)
    · exact Prod.ext (le_antisymm h1i h2i) h1

/-- Modelled from the spec: the batch of candidate distances tagged with their
original draw order, index first. -/
def indexed (ds : List ℚ) : List (ℕ × ℚ) := (List.range ds.length).zip ds

/-- Modelled from the spec: the batch sorted ascending by distance with a
stable sort (ties at equal distance keep original draw order). -/
def sortedBatch (ds : List ℚ) : List (ℕ × ℚ) := List.insertionSort rankLe (indexed ds)

/-- Modelled from the spec: the new population of a Population Sampler call,
the n candidates of smallest distance (stable tie-breaking), as pairs of
original draw index and distance. -/
def selectIdx (n : ℕ) (ds : List ℚ) : List (ℕ × ℚ) := (sortedBatch ds).take n

/-- Modelled from the spec: the acceptance threshold of a Population Sampler
call, the n-th smallest distance of the batch. -/
def thresholdOf (n : ℕ) (ds : List ℚ) : ℚ :=
  ((sortedBatch ds).map Prod.snd).getD (n - 1) 0

/-! ### Error kinds (spec section 7) -/

/-- Modelled from the spec: the error kinds of spec section 7. -/
inductive SmcError where
  | invalidQuantile
  | dimensionMismatch
  | simulatorFailure
deriving DecidableEq

/-! ### SMC controller and round loop (spec 4.4, notebook markdown of cell
before cell 20)

The notebook describes one round as: step 1, candidate parameters are sampled
from the current proposal distribution with an acceptance threshold determined
by the previous population (round 1 samples from the prior and accepts all);
step 2, the distance measure is updated based on the observed sample, and the
n_samples candidates with the smallest distance under the updated measure are
selected as the new population.
-/

/-- Modelled from the spec: the configuration of a run, the quantities that
spec section 8 requires determinism in. -/
structure SmcConfig where
  nSamples : ℕ
  quantile : ℚ
  seed : ℕ
deriving DecidableEq

/-- Modelled from the spec: the external collaborators of the core (spec
section 6).  observed is the fixed observed feature vector.  prop takes the
seed, the 1-based round index, the previous round's weight vector and squared
threshold (the acceptance context) and the requested batch size, and returns
every candidate parameter actually simulated during the round; for rounds
beyond the first the external SMC machinery keeps drawing until enough
candidates pass the acceptance threshold, so the returned list may be longer
than the requested batch size.  simulate is the deterministic simulator and
est the per-round weight estimator (its concrete inverse-standard-deviation
form is verified separately; the round loop is proved for any estimator). -/
structure Collab where
  observed : List ℚ
  prop : ℕ → ℕ → List ℚ → ℚ → ℕ → List ℚ
  simulate : ℕ → ℚ → List ℚ
  est : List (List ℚ) → List ℚ

/-- Modelled from the spec: the Run State of spec section 3, owned by the
controller and carried across rounds (and across sample calls, which resume
from it). -/
structure RunState where
  round : ℕ
  population : List ℚ
  thresholdSq : ℚ
  weight : List ℚ
  weightHistory : List (List ℚ)
  nSim : ℕ
deriving DecidableEq

/-- Diagnostic record of one completed round: the acceptance context passed to
the proposal step (the previous round's weight), the weight actually used for
this round's distance computation and selection, the simulated feature batch,
the weight estimated from it, and the number of simulator draws. -/
structure RoundLog where
  acceptWeight : List ℚ
  usedWeight : List ℚ
  batch : List (List ℚ)
  estWeight : List ℚ
  draws : ℕ
deriving DecidableEq

/-- The initial Run State: no population, round 0, default (all-ones) weight,
empty history, no simulations. -/
def initState (d : ℕ) : RunState :=
  { round := 0, population := [], thresholdSq := 0, weight := defaultWeight d,
    weightHistory := [], nSim := 0 }

/-- Modelled from the spec and the notebook markdown: one SMC round.  The
candidate draws come from the external proposal collaborator, which receives
the previous round's weight and threshold as acceptance context; round 1
accepts every draw, later rounds keep the draws whose distance under the
previous weight passes the previous squared threshold.  The weight vector is
then re-estimated from the accepted batch, the accepted candidates are ranked
by the freshly weighted squared distance, the n_samples smallest are selected
as the new population, and the new weight vector is appended to the weight
history. -/
def stepRound (cfg : SmcConfig) (c : Collab) (st : RunState) : RunState × RoundLog :=
  let B := batchSize cfg.nSamples cfg.quantile
  let draws := c.prop cfg.seed (st.round + 1) st.weight st.thresholdSq B
  let sims := draws.map (fun p => (p, c.simulate cfg.seed p))
  let acc := if st.round = 0 then sims
    else sims.filter (fun ps => weightedSqDev st.weight c.observed ps.2 ≤ st.thresholdSq)
  let feats := acc.map Prod.snd
  let w := c.est feats
  let ds := feats.map (fun s => weightedSqDev w c.observed s)
  let sel := selectIdx cfg.nSamples ds
  let pop := sel.map (fun pr => (acc.map Prod.fst).getD pr.1 0)
  let th := thresholdOf cfg.nSamples ds
  ({ round := st.round + 1, population := pop, thresholdSq := th, weight := w,
     weightHistory := st.weightHistory ++ [w], nSim := st.nSim + draws.length },
   { acceptWeight := st.weight, usedWeight := w, batch := feats, estWeight := w,
     draws := draws.length })

/-- Modelled from the spec: the round loop, iterating stepRound a requested
number of rounds from a given Run State.  Returns the final Run State together
with the per-round diagnostic logs.  A sample call on a controller holding
state st is runFrom cfg c st rounds; a later call resumes from the state the
previous call returned. -/
def runFrom (cfg : SmcConfig) (c : Collab) : RunState → ℕ → RunState × List RoundLog
  | st, 0 => (st, [])
  | st, rounds + 1 =>
    let p := stepRound cfg c st
    let rest := runFrom cfg c p.1 rounds
    (rest.1, p.2 :: rest.2)

/-- Modelled from the spec: a guarded sample call (spec 4.3 and section 7):
a quantile outside (0, 1], or an implied batch size smaller than n_samples,
is a configuration error detected before any simulation work begins. -/
def checkedSample (cfg : SmcConfig) (c : Collab) (st : RunState) (rounds : ℕ) :
    Except SmcError (RunState × List RoundLog) :=
  if cfg.quantile ≤ 0 ∨ 1 < cfg.quantile then .error .invalidQuantile
  else if batchSize cfg.nSamples cfg.quantile < cfg.nSamples then .error .invalidQuantile
  else .ok (runFrom cfg c st rounds)

/-- A fresh run of the controller: rounds iterated from the initial state. -/
def smcRun (cfg : SmcConfig) (c : Collab) (rounds : ℕ) : RunState :=
  (runFrom cfg c (initState c.observed.length) rounds).1

/-- The per-round diagnostic logs of a fresh run. -/
def smcLogs (cfg : SmcConfig) (c : Collab) (rounds : ℕ) : List RoundLog :=
  (runFrom cfg c (initState c.observed.length) rounds).2

/-- The k-th round's diagnostic log (0-based; the empty log past the end). -/
def logAt (logs : List RoundLog) (k : ℕ) : RoundLog :=
  logs.getD k ⟨[], [], [], [], 0⟩

/-- Total simulator draws recorded across a list of round logs. -/
def simsUsed (logs : List RoundLog) : ℕ := (logs.map (fun lg => lg.draws)).sum

/-- A small concrete collaborator used to exercise the round-loop model:
one observed feature, a proposal that emits the requested number of
candidates, the identity simulator, and an estimator whose output depends on
the batch it receives. -/
def demoCollab : Collab where
  observed := [0]
  prop := fun _ r _ _ B => (List.range B).map (fun i => (i : ℚ) + r)
  simulate := fun _ p => [p]
  est := fun S => [(S.length : ℚ) + 1]

/-- A small concrete configuration used to exercise the round-loop model. -/
def demoConfig : SmcConfig := { nSamples := 2, quantile := 1, seed := 123 }

/-! ### Helper lemmas: weighted distance -/

theorem getD_replicate_of_lt {d j : ℕ} (hj : j < d) (a b : ℚ) :
    (List.replicate d a).getD j b = a := by
  rw [List.getD_eq_getElem?_getD, List.getElem?_replicate]
  simp [hj]

theorem weightedSqDev_defaultWeight (o s : List ℚ) :
    weightedSqDev (defaultWeight o.length) o s =
      ((List.range o.length).map (fun j => (s.getD j 0 - o.getD j 0) ^ 2)).sum := by
  unfold weightedSqDev defaultWeight
  refine congrArg List.sum (List.map_congr_left ?_)
  intro j hj
  rw [List.mem_range] at hj
  rw [getD_replicate_of_lt hj]
  ring

theorem weightedSqDev_nonneg (w o s : List ℚ) : 0 ≤ weightedSqDev w o s := by
  unfold weightedSqDev
  apply List.sum_nonneg
  intro x hx
  rw [List.mem_map] at hx
  obtain ⟨j, _, rfl⟩ := hx
  positivity

/-- Comparisons of weighted distances agree with comparisons of the squared
deviations, so ranking, selection and acceptance in the round-loop model may
be carried out on the rational squared distances. -/
theorem weightedDist_le_iff (w o s t : List ℚ) :
    weightedDist w o s ≤ weightedDist w o t ↔
      weightedSqDev w o s ≤ weightedSqDev w o t := by
  unfold weightedDist
  rw [Real.sqrt_le_sqrt_iff (by exact_mod_cast weightedSqDev_nonneg w o t)]
  exact_mod_cast Iff.rfl

/-! ### Helper lemmas: weight estimator -/

theorem popVar_nonneg (xs : List ℚ) : 0 ≤ popVar xs := by
  unfold popVar
  apply div_nonneg
  · apply List.sum_nonneg
    intro x hx
    rw [List.mem_map] at hx
    obtain ⟨y, _, rfl⟩ := hx
    positivity
  · exact_mod_cast Nat.zero_le xs.length

theorem stddev_pos_iff (xs : List ℚ) : 0 < stddev xs ↔ 0 < popVar xs := by
  unfold stddev
  rw [Real.sqrt_pos]
  exact_mod_cast Iff.rfl

theorem stddev_eq_zero_iff (xs : List ℚ) : stddev xs = 0 ↔ popVar xs = 0 := by
  unfold stddev
  rw [Real.sqrt_eq_zero']
  constructor
  · intro h
    have h0 := popVar_nonneg xs
    have : ((popVar xs : ℚ) : ℝ) ≤ 0 := h
    exact_mod_cast le_antisymm this (by exact_mod_cast h0)
  · intro h
    rw [h]
    simp

/-- A constant list has zero population variance. -/
theorem popVar_of_constant (xs : List ℚ) (c : ℚ) (hc : ∀ x ∈ xs, x = c) :
    popVar xs = 0 := by
  rcases List.eq_nil_or_concat xs with rfl | _
  · simp [popVar]
  · have hrep : xs = List.replicate xs.length c := by
      rw [List.eq_replicate_iff]
      exact ⟨rfl, hc⟩
    have hmean : mean xs = c ∨ xs.length = 0 := by
      by_cases hn : xs.length = 0
      · right; exact hn
      · left
        unfold mean
        rw [hrep, List.sum_replicate, List.length_replicate]
        rw [nsmul_eq_mul]
        field_simp
    rcases hmean with hm | hn
    · unfold popVar
      have : xs.map (fun x => (x - mean xs) ^ 2) = List.replicate xs.length 0 := by
        rw [List.eq_replicate_iff]
        constructor
        · simp
        · intro b hb
          rw [List.mem_map] at hb
          obtain ⟨y, hy, rfl⟩ := hb
          rw [hm, hc y hy]
          ring
      rw [this, List.sum_replicate]
      simp
    · rw [List.length_eq_zero] at hn
      simp [hn, popVar]

/-! ### Helper lemmas: batch selection -/

theorem length_indexed (ds : List ℚ) : (indexed ds).length = ds.length := by
  simp [indexed]

theorem length_sortedBatch (ds : List ℚ) : (sortedBatch ds).length = ds.length := by
  rw [sortedBatch, List.length_insertionSort, length_indexed]

theorem map_snd_indexed (ds : List ℚ) : (indexed ds).map Prod.snd = ds :=
  List.map_snd_zip _ _ (by simp)

theorem sortedBatch_sorted (ds : List ℚ) : List.Sorted rankLe (sortedBatch ds) :=
  List.sorted_insertionSort rankLe (indexed ds)

theorem sortedBatch_perm (ds : List ℚ) : (sortedBatch ds).Perm (indexed ds) :=
  List.perm_insertionSort rankLe (indexed ds)

theorem rankLe_snd_le {a b : ℕ × ℚ} (h : rankLe a b) : a.2 ≤ b.2 := by
  rcases h with h | ⟨h, _⟩
  · exact le_of_lt h
  · exact le_of_eq h

/-- Projecting the stably sorted batch on distances gives exactly the
distances sorted ascending. -/
theorem map_snd_sortedBatch (ds : List ℚ) :
    (sortedBatch ds).map Prod.snd = List.insertionSort (· ≤ ·) ds := by
  have hs1 : List.Sorted (· ≤ ·) ((sortedBatch ds).map Prod.snd) := by
    rw [List.Sorted, List.pairwise_map]
    exact (sortedBatch_sorted ds).imp (fun h => rankLe_snd_le h)
  have hp : ((sortedBatch ds).map Prod.snd).Perm (List.insertionSort (· ≤ ·) ds) := by
    have h1 : ((sortedBatch ds).map Prod.snd).Perm ds := by
      have := (sortedBatch_perm ds).map Prod.snd
      rwa [map_snd_indexed ds] at this
    exact h1.trans (List.perm_insertionSort _ ds).symm
  exact List.eq_of_perm_of_sorted hp hs1 (List.sorted_insertionSort _ ds)

theorem sortedBatch_nodup (ds : List ℚ) : (sortedBatch ds).Nodup := by
  apply (sortedBatch_perm ds).nodup_iff.mpr
  apply List.Nodup.of_map Prod.fst
  rw [indexed, List.map_fst_zip _ _ (by simp)]
  exact List.nodup_range _

theorem length_selectIdx {n : ℕ} {ds : List ℚ} (hB : n ≤ ds.length) :
    (selectIdx n ds).length = n := by
  rw [selectIdx, List.length_take, length_sortedBatch]
  omega

theorem thresholdOf_eq_get {n : ℕ} {ds : List ℚ} (h : n - 1 < (sortedBatch ds).length) :
    thresholdOf n ds = ((sortedBatch ds).get ⟨n - 1, h⟩).2 := by
  unfold thresholdOf
  rw [List.getD_eq_getElem?_getD, List.getElem?_map, List.getElem?_eq_getElem h]
  simp

theorem snd_le_thresholdOf {n : ℕ} {ds : List ℚ} (hn : 1 ≤ n) (hB : n ≤ ds.length)
    {p : ℕ × ℚ} (hp : p ∈ selectIdx n ds) : p.2 ≤ thresholdOf n ds := by
  have hlen : n - 1 < (sortedBatch ds).length := by
    rw [length_sortedBatch]
    omega
  rw [thresholdOf_eq_get hlen]
  rw [selectIdx, List.mem_take_iff_getElem] at hp
  obtain ⟨i, hi, rfl⟩ := hp
  have hib : i < (sortedBatch ds).length := by
    rw [length_sortedBatch]
    omega
  have hle : rankLe ((sortedBatch ds).get ⟨i, hib⟩) ((sortedBatch ds).get ⟨n - 1, hlen⟩) := by
    apply (sortedBatch_sorted ds).rel_get_of_le
    rw [Fin.le_def]
    simp only
    omega
  exact rankLe_snd_le (by simpa using hle)

theorem thresholdOf_mem_selectIdx {n : ℕ} {ds : List ℚ} (hn : 1 ≤ n) (hB : n ≤ ds.length) :
    ∃ p ∈ selectIdx n ds, p.2 = thresholdOf n ds := by
  have hlen : n - 1 < (sortedBatch ds).length := by
    rw [length_sortedBatch]
    omega
  refine ⟨(sortedBatch ds).get ⟨n - 1, hlen⟩, ?_, (thresholdOf_eq_get hlen).symm⟩
  rw [selectIdx, List.mem_take_iff_getElem]
  exact ⟨n - 1, by omega, by simp⟩

theorem selectIdx_tiebreak {n : ℕ} {ds : List ℚ} {p q : ℕ × ℚ}
    (hp : p ∈ selectIdx n ds) (hq : q ∈ (sortedBatch ds).drop n) (heq : p.2 = q.2) :
    p.1 < q.1 := by
  have hrel : rankLe p q :=
    (sortedBatch_sorted ds).rel_of_mem_take_of_mem_drop hp hq
  have hne : p ≠ q := by
    have hd : List.Disjoint ((sortedBatch ds).take n) ((sortedBatch ds).drop n) := by
      apply List.disjoint_of_nodup_append
      rw [List.take_append_drop]
      exact sortedBatch_nodup ds
    intro h
    exact hd hp (h ▸ hq)
  rcases hrel with h | ⟨h2, h3⟩
  · exact absurd heq (ne_of_lt h)
  · rcases lt_or_eq_of_le h3 with h4 | h4
    · exact h4
    · exact absurd (Prod.ext h4 heq) hne

/-! ### Helper lemmas: the round loop -/

theorem stepRound_round (cfg : SmcConfig) (c : Collab) (st : RunState) :
    (stepRound cfg c st).1.round = st.round + 1 := rfl

theorem stepRound_weight_eq_est (cfg : SmcConfig) (c : Collab) (st : RunState) :
    (stepRound cfg c st).1.weight = (stepRound cfg c st).2.estWeight := rfl

theorem stepRound_acceptWeight (cfg : SmcConfig) (c : Collab) (st : RunState) :
    (stepRound cfg c st).2.acceptWeight = st.weight := rfl

theorem stepRound_used_eq_est (cfg : SmcConfig) (c : Collab) (st : RunState) :
    (stepRound cfg c st).2.usedWeight = (stepRound cfg c st).2.estWeight := rfl

theorem stepRound_history (cfg : SmcConfig) (c : Collab) (st : RunState) :
    (stepRound cfg c st).1.weightHistory
      = st.weightHistory ++ [(stepRound cfg c st).2.estWeight] := rfl

theorem stepRound_nSim (cfg : SmcConfig) (c : Collab) (st : RunState) :
    (stepRound cfg c st).1.nSim = st.nSim + (stepRound cfg c st).2.draws := rfl

theorem runFrom_zero (cfg : SmcConfig) (c : Collab) (st : RunState) :
    runFrom cfg c st 0 = (st, []) := rfl

theorem runFrom_succ (cfg : SmcConfig) (c : Collab) (st : RunState) (R : ℕ) :
    runFrom cfg c st (R + 1)
      = ((runFrom cfg c (stepRound cfg c st).1 R).1,
         (stepRound cfg c st).2 :: (runFrom cfg c (stepRound cfg c st).1 R).2) := rfl

theorem length_runFrom_logs (cfg : SmcConfig) (c : Collab) (st : RunState) (R : ℕ) :
    (runFrom cfg c st R).2.length = R := by
  induction R generalizing st with
  | zero => rfl
  | succ R ih =>
    rw [runFrom_succ]
    simp [ih]

theorem runFrom_history (cfg : SmcConfig) (c : Collab) (st : RunState) (R : ℕ) :
    (runFrom cfg c st R).1.weightHistory
      = st.weightHistory ++ (runFrom cfg c st R).2.map (fun lg => lg.estWeight) := by
  induction R generalizing st with
  | zero => simp [runFrom_zero]
  | succ R ih =>
    rw [runFrom_succ]
    simp only [List.map_cons]
    rw [ih, stepRound_history]
    simp

theorem runFrom_round (cfg : SmcConfig) (c : Collab) (st : RunState) (R : ℕ) :
    (runFrom cfg c st R).1.round = st.round + R := by
  induction R generalizing st with
  | zero => rfl
  | succ R ih =>
    rw [runFrom_succ]
    simp only
    rw [ih, stepRound_round]
    omega

theorem runFrom_nSim (cfg : SmcConfig) (c : Collab) (st : RunState) (R : ℕ) :
    (runFrom cfg c st R).1.nSim = st.nSim + simsUsed (runFrom cfg c st R).2 := by
  induction R generalizing st with
  | zero => simp [runFrom_zero, simsUsed]
  | succ R ih =>
    rw [runFrom_succ]
    simp only [simsUsed, List.map_cons, List.sum_cons]
    rw [ih, stepRound_nSim]
    simp only [simsUsed]
    omega

theorem runFrom_add (cfg : SmcConfig) (c : Collab) (st : RunState) (a b : ℕ) :
    runFrom cfg c st (a + b)
      = ((runFrom cfg c (runFrom cfg c st a).1 b).1,
         (runFrom cfg c st a).2 ++ (runFrom cfg c (runFrom cfg c st a).1 b).2) := by
  induction a generalizing st with
  | zero => simp [runFrom_zero]
  | succ a ih =>
    have h1 : a + 1 + b = (a + b) + 1 := by omega
    rw [h1, runFrom_succ, runFrom_succ, ih]
    simp

theorem runFrom_logAt_zero (cfg : SmcConfig) (c : Collab) (st : RunState) (R : ℕ)
    (hR : 1 ≤ R) : (logAt (runFrom cfg c st R).2 0).acceptWeight = st.weight := by
  cases R with
  | zero => omega
  | succ R =>
    rw [runFrom_succ]
    simp [logAt, stepRound_acceptWeight]

theorem runFrom_logAt_succ (cfg : SmcConfig) (c : Collab) (st : RunState) (R k : ℕ) :
    logAt (runFrom cfg c st (R + 1)).2 (k + 1)
      = logAt (runFrom cfg c (stepRound cfg c st).1 R).2 k := by
  rw [runFrom_succ]
  simp [logAt]

theorem runFrom_accept_chain (cfg : SmcConfig) (c : Collab) (st : RunState) (R k : ℕ)
    (hk : k + 1 < R) :
    (logAt (runFrom cfg c st R).2 (k + 1)).acceptWeight
      = (logAt (runFrom cfg c st R).2 k).estWeight := by
  induction R generalizing st k with
  | zero => omega
  | succ R ih =>
    cases k with
    | zero =>
      rw [runFrom_logAt_succ, runFrom_logAt_zero cfg c _ R (by omega), runFrom_succ]
      simp [logAt]
      exact (stepRound_weight_eq_est cfg c st)
    | succ k =>
      rw [runFrom_logAt_succ, runFrom_logAt_succ]
      exact ih _ _ (by omega)

theorem runFrom_used_eq_est (cfg : SmcConfig) (c : Collab) (st : RunState) (R k : ℕ) :
    (logAt (runFrom cfg c st R).2 k).usedWeight
      = (logAt (runFrom cfg c st R).2 k).estWeight := by
  induction R generalizing st k with
  | zero => rfl
  | succ R ih =>
    cases k with
    | zero =>
      rw [runFrom_succ]
      simp [logAt]
      exact stepRound_used_eq_est cfg c st
    | succ k =>
      rw [runFrom_logAt_succ]
      exact ih _ _

theorem runFrom_history_entry (cfg : SmcConfig) (c : Collab) (st : RunState) (R k : ℕ)
    (hk : k < R) :
    (runFrom cfg c st R).1.weightHistory.getD (st.weightHistory.length + k) []
      = (logAt (runFrom cfg c st R).2 k).estWeight := by
  rw [runFrom_history]
  rw [List.getD_append_right _ _ _ _ (by omega)]
  simp only [Nat.add_sub_cancel_left]
  have hlen : k < ((runFrom cfg c st R).2.map (fun lg => lg.estWeight)).length := by
    rw [List.length_map, length_runFrom_logs]
    exact hk
  rw [List.getD_eq_getElem?_getD, List.getElem?_eq_getElem hlen]
  simp only [List.getElem_map, Option.getD_some]
  have hk2 : k < (runFrom cfg c st R).2.length := by
    rw [length_runFrom_logs]
    exact hk
  rw [logAt, List.getD_eq_getElem?_getD, List.getElem?_eq_getElem hk2]
  rfl

theorem smcRun_history_map (cfg : SmcConfig) (c : Collab) (m : ℕ) :
    (smcRun cfg c m).weightHistory = (smcLogs cfg c m).map (fun lg => lg.estWeight) := by
  rw [smcRun, runFrom_history]
  simp [initState, smcLogs]

theorem smcRun_history_length (cfg : SmcConfig) (c : Collab) (m : ℕ) :
    (smcRun cfg c m).weightHistory.length = m := by
  rw [smcRun_history_map, List.length_map, smcLogs, length_runFrom_logs]

theorem batchSize_ex1 : batchSize ex1_nSamples ex1_quantile = 10000 := by
  unfold batchSize ex1_nSamples ex1_quantile
  norm_num
  rfl

theorem batchSize_ex2 : batchSize ex2_nSamples ex2_quantile = 2000 := by
  unfold batchSize ex2_nSamples ex2_quantile
  norm_num
  rfl

/-! ### Claim theorems -/

/-- C1: for every observed feature vector o of dimension d at least 1, every
batch S of B at least 1 simulated feature vectors, and every weight vector w,
the Weighted Distance Function returns a vector of B non-negative scalars
whose i-th entry is sqrt of the sum over j of (w_j * (S_i_j - o_j))^2, and
with the default all-ones weight vector it coincides with the ordinary
unweighted Euclidean distance; being a plain function of w, o and S it has no
side effects. -/
theorem weighted_distance_contract (o : List ℚ) (S : List (List ℚ)) (w : List ℚ)
    (_hd : 1 ≤ o.length) (_hB : 1 ≤ S.length) :
    (weightedDistBatch w o S).length = S.length
    ∧ (∀ x ∈ weightedDistBatch w o S, 0 ≤ x)
    ∧ weightedDistBatch w o S
        = S.map (fun s => Real.sqrt
            (((((List.range o.length).map
              (fun j => (w.getD j 0 * (s.getD j 0 - o.getD j 0)) ^ 2)).sum : ℚ) : ℝ)))
    ∧ ∀ s ∈ S, weightedDist (defaultWeight o.length) o s = euclidDist o s := by
  refine ⟨by simp [weightedDistBatch], ?_, rfl, ?_⟩
  · intro x hx
    rw [weightedDistBatch, List.mem_map] at hx
    obtain ⟨s, _, rfl⟩ := hx
    exact Real.sqrt_nonneg _
  · intro s _
    unfold weightedDist euclidDist
    rw [weightedSqDev_defaultWeight]

/-- C1 witness: the contract evaluated at the observed vector [20, 20] of
example 1 and a two-row batch. -/
theorem weighted_distance_contract_witness :
    (weightedDistBatch [1, 1] [20, 20] [[19, 25], [20, 20]]).length = 2
    ∧ weightedDist (defaultWeight 2) [20, 20] [19, 25] = euclidDist [20, 20] [19, 25] := by
  have h := weighted_distance_contract [20, 20] [[19, 25], [20, 20]] [1, 1]
    (by decide) (by decide)
  refine ⟨by rw [h.1]; decide, ?_⟩
  exact h.2.2.2 [19, 25] (List.mem_cons_self _ _)

/-- C2: for every batch S and feature index j, the Weight Estimator returns
1 / stddev of column j whenever that standard deviation is strictly positive,
and 0 when it is zero; a feature constant across the batch gets weight 0, so
no division by zero occurs; every weight is non-negative. -/
theorem weight_estimator_contract (S : List (List ℚ)) (j : ℕ) (hj : j < featDim S) :
    ((0 : ℝ) < stddev (column S j) → (estWeights S).getD j 0 = 1 / stddev (column S j))
    ∧ (stddev (column S j) = 0 → (estWeights S).getD j 0 = 0)
    ∧ ((∀ x ∈ column S j, x = (column S j).headD 0) → (estWeights S).getD j 0 = 0)
    ∧ 0 ≤ (estWeights S).getD j 0 := by
  have hget : (estWeights S).getD j 0 = columnWeight (column S j) := by
    unfold estWeights
    rw [List.getD_eq_getElem?_getD, List.getElem?_map, List.getElem?_range hj]
    rfl
  rw [hget]
  refine ⟨?_, ?_, ?_, ?_⟩
  · intro hpos
    rw [columnWeight, if_pos ((stddev_pos_iff _).mp hpos)]
  · intro hzero
    have h0 : popVar (column S j) = 0 := (stddev_eq_zero_iff _).mp hzero
    rw [columnWeight, if_neg (by rw [h0]; exact lt_irrefl 0)]
  · intro hconst
    have h0 : popVar (column S j) = 0 := popVar_of_constant _ _ hconst
    rw [columnWeight, if_neg (by rw [h0]; exact lt_irrefl 0)]
  · rw [columnWeight]
    by_cases hp : 0 < popVar (column S j)
    · rw [if_pos hp]
      have : 0 ≤ stddev (column S j) := Real.sqrt_nonneg _
      positivity
    · rw [if_neg hp]

/-- C2 witness: the estimator contract at a batch whose first column varies
and whose second column is constant. -/
theorem weight_estimator_contract_witness :
    0 < featDim [[(1 : ℚ), 5], [3, 5]]
    ∧ (((0 : ℝ) < stddev (column [[(1 : ℚ), 5], [3, 5]] 0) →
          (estWeights [[(1 : ℚ), 5], [3, 5]]).getD 0 0
            = 1 / stddev (column [[(1 : ℚ), 5], [3, 5]] 0))
        ∧ (stddev (column [[(1 : ℚ), 5], [3, 5]] 0) = 0 →
          (estWeights [[(1 : ℚ), 5], [3, 5]]).getD 0 0 = 0)
        ∧ ((∀ x ∈ column [[(1 : ℚ), 5], [3, 5]] 0,
            x = (column [[(1 : ℚ), 5], [3, 5]] 0).headD 0) →
          (estWeights [[(1 : ℚ), 5], [3, 5]]).getD 0 0 = 0)
        ∧ 0 ≤ (estWeights [[(1 : ℚ), 5], [3, 5]]).getD 0 0) :=
  ⟨by decide, weight_estimator_contract [[(1 : ℚ), 5], [3, 5]] 0 (by decide)⟩

/-- C3 counterexample: the claim that round k's weights affect only round
k+1's selection, with round 1's population selected by the default unweighted
distance, contradicts example 1 of the notebook: the one-round adaptive run
was presented with the exact same 10000 candidates as the rejection run (same
batch size and seed), the rejection run's unweighted selection of the best 100
had threshold 6.66, yet the adaptive run recorded a one-entry weight history
and threshold 0.462 — so the single round estimated weights from its own batch
and selected with them (the notebook states: the 100 parameters included in
the posterior sample are selected based on the new distance measure). -/
theorem round1_weighted_selection_counterexample :
    ex1_ada_rounds = 1 ∧ ex1_ada_w_history.length = 1
    ∧ ex1_ada_threshold ≠ ex1_rej_threshold := by
  refine ⟨rfl, rfl, ?_⟩
  unfold ex1_ada_threshold ex1_rej_threshold
  norm_num

/-- C3 amended: in every round the weight vector is estimated from the
round's own simulated batch and used for that same round's distance
computation and selection (so even round 1 selects with the freshly weighted
distance); the estimate is appended to the weight history as the round's
entry; the weight estimated in round k feeds forward to round k+1 as the
acceptance context of its candidate sampling, and round 1's acceptance context
is the initial default (all-ones) weight under which all draws are accepted. -/
theorem adaptive_weight_sequencing (cfg : SmcConfig) (c : Collab) (R k : ℕ)
    (hk : k < R) :
    (logAt (smcLogs cfg c R) k).usedWeight = (logAt (smcLogs cfg c R) k).estWeight
    ∧ (smcRun cfg c R).weightHistory.getD k [] = (logAt (smcLogs cfg c R) k).estWeight
    ∧ (k + 1 < R →
        (logAt (smcLogs cfg c R) (k + 1)).acceptWeight
          = (logAt (smcLogs cfg c R) k).estWeight)
    ∧ (logAt (smcLogs cfg c R) 0).acceptWeight = defaultWeight c.observed.length := by
  refine ⟨runFrom_used_eq_est cfg c _ R k, ?_,
    fun h => runFrom_accept_chain cfg c _ R k h, ?_⟩
  · have h := runFrom_history_entry cfg c (initState c.observed.length) R k hk
    simpa [initState, smcRun, smcLogs] using h
  · have h := runFrom_logAt_zero cfg c (initState c.observed.length) R (by omega)
    simpa [initState, smcLogs] using h

/-- C3 amended witness: the sequencing at the demo collaborator, two rounds,
round index 0. -/
theorem adaptive_weight_sequencing_witness :
    0 < 2
    ∧ ((logAt (smcLogs demoConfig demoCollab 2) 0).usedWeight
          = (logAt (smcLogs demoConfig demoCollab 2) 0).estWeight
        ∧ (smcRun demoConfig demoCollab 2).weightHistory.getD 0 []
          = (logAt (smcLogs demoConfig demoCollab 2) 0).estWeight
        ∧ (0 + 1 < 2 →
            (logAt (smcLogs demoConfig demoCollab 2) (0 + 1)).acceptWeight
              = (logAt (smcLogs demoConfig demoCollab 2) 0).estWeight)
        ∧ (logAt (smcLogs demoConfig demoCollab 2) 0).acceptWeight
          = defaultWeight demoCollab.observed.length) :=
  ⟨by decide, adaptive_weight_sequencing demoConfig demoCollab 2 0 (by decide)⟩

/-- C4 counterexample: the recorded cumulative simulation count after the 5
rounds of example 2 is 32000, not 5 * ceil(1000 / 0.5) = 10000; rounds after
the first redraw candidates against the previous population's acceptance
threshold and so need more than B simulations. -/
theorem nSim_formula_counterexample :
    ex2_nSim_after5 ≠ ex2_rounds_first * batchSize ex2_nSamples ex2_quantile := by
  rw [batchSize_ex2]
  unfold ex2_nSim_after5 ex2_rounds_first
  omega

/-- C4 amended: a single-round run (and round 1 of any run) performs exactly
B = ceil(n_samples / quantile) simulations, as recorded in example 1 (10000
simulations for n_samples = 100, quantile = 0.01, both for the rejection run
and the one-round adaptive run); later rounds redraw candidates against the
previous acceptance threshold, so n_simulations_total is cumulative across
rounds and at least R * B, as recorded in example 2 (32000 at least 5 * 2000
after five rounds, and 48000 = 32000 + 16000 at least 7 * 2000 after the two
further rounds). -/
theorem nSim_cumulative_amended :
    ex1_rej_nSim = batchSize ex1_nSamples ex1_quantile
    ∧ ex1_ada_nSim = ex1_ada_rounds * batchSize ex1_nSamples ex1_quantile
    ∧ ex2_rounds_first * batchSize ex2_nSamples ex2_quantile ≤ ex2_nSim_after5
    ∧ ex2_nSim_after7 = ex2_nSim_after5 + 16000
    ∧ (ex2_rounds_first + ex2_rounds_second) * batchSize ex2_nSamples ex2_quantile
        ≤ ex2_nSim_after7 := by
  rw [batchSize_ex1, batchSize_ex2]
  unfold ex1_rej_nSim ex1_ada_nSim ex1_ada_rounds ex2_rounds_first ex2_rounds_second
  unfold ex2_nSim_after5 ex2_nSim_after7
  omega

/-- C5: within a single Population Sampler call with n_samples at least 1 and
batch size at least n_samples, the new population consists of the n_samples
candidates of smallest distance, the returned threshold is the n_samples-th
smallest distance of the batch (equivalently the maximum distance among the
accepted particles, which attain it), and ties at the boundary are broken by
original draw order: an accepted particle whose distance equals a rejected
particle's distance has the smaller draw index. -/
theorem population_selection_contract (n : ℕ) (ds : List ℚ) (hn : 1 ≤ n)
    (hB : n ≤ ds.length) :
    (selectIdx n ds).length = n
    ∧ thresholdOf n ds = (List.insertionSort (· ≤ ·) ds).getD (n - 1) 0
    ∧ (∀ p ∈ selectIdx n ds, p.2 ≤ thresholdOf n ds)
    ∧ (∃ p ∈ selectIdx n ds, p.2 = thresholdOf n ds)
    ∧ (∀ p ∈ selectIdx n ds, ∀ q ∈ (sortedBatch ds).drop n, p.2 = q.2 → p.1 < q.1) := by
  refine ⟨length_selectIdx hB, ?_, fun p hp => snd_le_thresholdOf hn hB hp,
    thresholdOf_mem_selectIdx hn hB, fun p hp q hq heq => selectIdx_tiebreak hp hq heq⟩
  rw [thresholdOf, map_snd_sortedBatch]

/-- C5 witness: selection of the best 2 from the batch of distances
[3, 1, 2, 1], which has a tie at the boundary. -/
theorem population_selection_contract_witness :
    ((selectIdx 2 [(3 : ℚ), 1, 2, 1]).length = 2
      ∧ thresholdOf 2 [(3 : ℚ), 1, 2, 1]
          = (List.insertionSort (· ≤ ·) [(3 : ℚ), 1, 2, 1]).getD 1 0
      ∧ (∀ p ∈ selectIdx 2 [(3 : ℚ), 1, 2, 1], p.2 ≤ thresholdOf 2 [(3 : ℚ), 1, 2, 1])
      ∧ (∃ p ∈ selectIdx 2 [(3 : ℚ), 1, 2, 1], p.2 = thresholdOf 2 [(3 : ℚ), 1, 2, 1])
      ∧ (∀ p ∈ selectIdx 2 [(3 : ℚ), 1, 2, 1],
          ∀ q ∈ (sortedBatch [(3 : ℚ), 1, 2, 1]).drop 2, p.2 = q.2 → p.1 < q.1)) :=
  population_selection_contract 2 [(3 : ℚ), 1, 2, 1] (by decide) (by decide)

/-- C6: after R completed rounds the weight history holds exactly R weight
vectors, one appended per round; running k further rounds extends the history
without mutating the existing entries (the old history is a prefix of, and is
recovered by taking the first R entries of, the longer history). -/
theorem weight_history_append_only (cfg : SmcConfig) (c : Collab) (R k : ℕ) :
    (smcRun cfg c R).weightHistory.length = R
    ∧ (smcRun cfg c R).weightHistory <+: (smcRun cfg c (R + k)).weightHistory
    ∧ (smcRun cfg c (R + k)).weightHistory.take R = (smcRun cfg c R).weightHistory := by
  have hpref : (smcRun cfg c R).weightHistory <+: (smcRun cfg c (R + k)).weightHistory := by
    rw [smcRun_history_map, smcRun_history_map, smcLogs, smcLogs, runFrom_add]
    simp only [List.map_append]
    exact ⟨_, rfl⟩
  refine ⟨smcRun_history_length cfg c R, hpref, ?_⟩
  obtain ⟨t, ht⟩ := hpref
  rw [← ht]
  have htake := List.take_left (smcRun cfg c R).weightHistory t
  rw [smcRun_history_length cfg c R] at htake
  exact htake

/-- C7: a quantile outside (0, 1], or an implied batch size smaller than
n_samples, makes the guarded sample call fail with the invalid-quantile error,
and the outcome is the same for every collaborator — in particular the
simulator is never consulted, so the failure precedes any simulation. -/
theorem invalid_quantile_guard (cfg : SmcConfig) (c : Collab) (st : RunState)
    (rounds : ℕ)
    (h : cfg.quantile ≤ 0 ∨ 1 < cfg.quantile
        ∨ batchSize cfg.nSamples cfg.quantile < cfg.nSamples) :
    checkedSample cfg c st rounds = .error .invalidQuantile
    ∧ ∀ c2 : Collab, checkedSample cfg c2 st rounds = checkedSample cfg c st rounds := by
  have hmain : ∀ c3 : Collab, checkedSample cfg c3 st rounds = .error .invalidQuantile := by
    intro c3
    unfold checkedSample
    rcases h with h | h | h
    · rw [if_pos (Or.inl h)]
    · rw [if_pos (Or.inr h)]
    · by_cases h01 : cfg.quantile ≤ 0 ∨ 1 < cfg.quantile
      · rw [if_pos h01]
      · rw [if_neg h01, if_pos h]
  exact ⟨hmain c, fun c2 => (hmain c2).trans (hmain c).symm⟩

/-- C7 witness: quantile 1.5 with n_samples 100 (scenario D of the spec)
fails with the invalid-quantile error. -/
theorem invalid_quantile_guard_witness :
    (1 : ℚ) < 3/2
    ∧ checkedSample ⟨100, 3/2, 0⟩ demoCollab (initState 1) 1
        = .error .invalidQuantile := by
  have h1 : (1 : ℚ) < 3/2 := by norm_num
  exact ⟨h1,
    (invalid_quantile_guard ⟨100, 3/2, 0⟩ demoCollab (initState 1) 1
      (Or.inr (Or.inl h1))).1⟩

/-- C8: two runs with identical configuration (n_samples, quantile, seed and
round count) on the same deterministic collaborators produce identical final
Run States, in particular identical populations and weight histories; in the
embedding all randomness is threaded explicitly through the seed, so no
hidden state can distinguish the runs. -/
theorem run_determinism (cfg1 cfg2 : SmcConfig) (c : Collab) (R1 R2 : ℕ)
    (hn : cfg1.nSamples = cfg2.nSamples) (hq : cfg1.quantile = cfg2.quantile)
    (hs : cfg1.seed = cfg2.seed) (hR : R1 = R2) :
    (smcRun cfg1 c R1).population = (smcRun cfg2 c R2).population
    ∧ (smcRun cfg1 c R1).weightHistory = (smcRun cfg2 c R2).weightHistory
    ∧ smcRun cfg1 c R1 = smcRun cfg2 c R2 := by
  have hcfg : cfg1 = cfg2 := by
    cases cfg1
    cases cfg2
    simp_all
  subst hcfg
  subst hR
  exact ⟨rfl, rfl, rfl⟩

/-- C8 witness: determinism at the demo configuration, three rounds. -/
theorem run_determinism_witness :
    (smcRun demoConfig demoCollab 3).population
        = (smcRun demoConfig demoCollab 3).population
    ∧ (smcRun demoConfig demoCollab 3).weightHistory
        = (smcRun demoConfig demoCollab 3).weightHistory
    ∧ smcRun demoConfig demoCollab 3 = smcRun demoConfig demoCollab 3 :=
  run_determinism demoConfig demoConfig demoCollab 3 3 rfl rfl rfl rfl

/-- C9 counterexample: in the recorded weight history of example 2 the weight
w1 of the informative feature does not increase monotonically from each round
to the next across the five rounds of the first call: it decreases from
0.01023228 in round 1 to 0.00921258 in round 2. -/
theorem w1_not_monotone_counterexample :
    ¬ ∀ i, i + 1 < 5 → ex2_w1 i < ex2_w1 (i + 1) := by
  intro h
  have h0 := h 0 (by omega)
  simp only [ex2_w1, ex2_w_history, List.getD_cons_zero, List.getD_cons_succ] at h0
  norm_num at h0

/-- C9 amended: across the five recorded rounds of example 2's first call the
weight w2 of the uninformative feature stays within 0.011 of 1, and the
weight w1 of the informative feature, after dipping from round 1 to round 2,
increases monotonically from round 2 onwards and ends above its starting
value. -/
theorem w_history_trend_amended :
    (∀ i, i < 5 → 1 - 11/1000 ≤ ex2_w2 i ∧ ex2_w2 i ≤ 1 + 11/1000)
    ∧ ex2_w1 1 < ex2_w1 0
    ∧ (∀ i, 1 ≤ i → i + 1 < 5 → ex2_w1 i < ex2_w1 (i + 1))
    ∧ ex2_w1 0 < ex2_w1 4 := by
  refine ⟨?_, ?_, ?_, ?_⟩
  · intro i hi
    interval_cases i <;>
      · simp only [ex2_w2, ex2_w_history, List.getD_cons_zero, List.getD_cons_succ]
        norm_num
  · simp only [ex2_w1, ex2_w_history, List.getD_cons_zero, List.getD_cons_succ]
    norm_num
  · intro i hi1 hi2
    have hi3 : i < 4 := by omega
    interval_cases i <;>
      · simp only [ex2_w1, ex2_w_history, List.getD_cons_zero, List.getD_cons_succ]
        norm_num
  · simp only [ex2_w1, ex2_w_history, List.getD_cons_zero, List.getD_cons_succ]
    norm_num

/-- C10: sampling is resumable: a second sample call on the controller state
left by a first call of R1 rounds behaves exactly like the continuation of a
single longer run — the composed run equals the R1 + R2 round run, the round
index continues to R1 + R2, the cumulative simulation count accumulates the
second call's draws on top of the first call's count, and the weight history
keeps the first call's entries as a prefix and reaches length R1 + R2; as
recorded in example 2 of the notebook, the second call continued with rounds
6 and 7, the simulation count grew from 32000 to 48000 = 32000 + 16000, and
the displayed history held 5 + 2 = 7 entries. -/
theorem resumable_sampling (cfg : SmcConfig) (c : Collab) (R1 R2 : ℕ) :
    runFrom cfg c (initState c.observed.length) (R1 + R2)
      = ((runFrom cfg c (smcRun cfg c R1) R2).1,
         smcLogs cfg c R1 ++ (runFrom cfg c (smcRun cfg c R1) R2).2)
    ∧ (runFrom cfg c (smcRun cfg c R1) R2).1.round = R1 + R2
    ∧ (runFrom cfg c (smcRun cfg c R1) R2).1.nSim
        = (smcRun cfg c R1).nSim + simsUsed (runFrom cfg c (smcRun cfg c R1) R2).2
    ∧ (smcRun cfg c R1).weightHistory
        <+: (runFrom cfg c (smcRun cfg c R1) R2).1.weightHistory
    ∧ (runFrom cfg c (smcRun cfg c R1) R2).1.weightHistory.length = R1 + R2
    ∧ ex2_nSim_after7 = ex2_nSim_after5 + 16000
    ∧ ex2_w_history.length = ex2_rounds_first + ex2_rounds_second := by
  have hcomp : runFrom cfg c (initState c.observed.length) (R1 + R2)
      = ((runFrom cfg c (smcRun cfg c R1) R2).1,
         smcLogs cfg c R1 ++ (runFrom cfg c (smcRun cfg c R1) R2).2) := by
    rw [runFrom_add]
    rfl
  have hround : (runFrom cfg c (smcRun cfg c R1) R2).1.round = R1 + R2 := by
    rw [runFrom_round]
    rw [smcRun, runFrom_round]
    simp [initState]
  have hhist : (smcRun cfg c R1).weightHistory
      <+: (runFrom cfg c (smcRun cfg c R1) R2).1.weightHistory := by
    rw [runFrom_history]
    exact ⟨_, rfl⟩
  have hlen : (runFrom cfg c (smcRun cfg c R1) R2).1.weightHistory.length = R1 + R2 := by
    rw [runFrom_history, List.length_append, smcRun_history_length, List.length_map,
      length_runFrom_logs]
  exact ⟨hcomp, hround, runFrom_nSim cfg c _ R2, hhist, hlen, by decide, by decide⟩

end ElfiAda
